import Mathlib

/-!
Shallow embedding of the local persistence and backup subsystem of the
Maomao Diaries application (files `app/hooks/useDiaryStorage.js` and
`app/hooks/useBackupManager.js`).

Modelling conventions:
* The AsyncStorage string key space is modelled by the inductive `Key`.
  The source builds keys by concatenating fixed prefixes with section
  names (`'@diary_items_' + sectionName`, etc.).  Those prefix families
  are pairwise collision-free (all five constants start with distinct
  prefixes and concatenation with a fixed prefix is injective), so the
  inductive is an exact model of the reachable key space.
* JSON serialization is abstracted away: the store maps keys to
  structured values (`DVal`) rather than strings.  Serialization of the
  values the code actually stores is injective and round-trips, so
  `JSON.parse(JSON.stringify(v)) = v` becomes the identity here.
* Timestamps (`Date.now()`, `new Date().toISOString()`,
  `new Date().toLocaleString()`) are modelled by a `Nat` clock value
  passed explicitly to each operation.
* Storage-write failures (`AsyncStorage.setItem` / `removeItem`
  rejections) are modelled by a `FailSpec` saying, per key, whether a
  set or a remove rejects.  Reads are assumed reliable (no claim under
  verification involves a failing read).
-/

namespace MaomaoDiaries

/-- The AsyncStorage keys used by the app (`STORAGE_KEYS` in
`useDiaryStorage.js` / `useBackupManager.js`):
`@diary_sections`, `@diary_items_<name>`, `@backup_diary_sections`,
`@backup_diary_items_<name>`, `@backup_metadata`. -/
inductive Key where
  | sections
  | items (name : String)
  | backupSections
  | backupItems (name : String)
  | backupMeta
deriving DecidableEq, Repr

/-- One diary entry.  The source constructs
`{id: Date.now(), text, createdAt, lastModified}`; the fields are
`Option`s because the buggy out-of-range path of `updateItem` builds an
object that carries only `text` and `lastModified` (spreading
`undefined` yields `{}`). -/
structure Entry where
  id : Option Nat
  text : Option String
  createdAt : Option Nat
  lastModified : Option Nat
deriving DecidableEq, Repr

/-- A value stored under some key: a section-name array, an item array,
a backup envelope `{data, timestamp, version}`, or the backup metadata
record `{lastBackup, backupKey, status: 'success'}` (the status field is
the constant string `'success'` and is omitted). -/
inductive DVal where
  | secs (l : List String)
  | ents (l : List Entry)
  | env (data : DVal) (timestamp : Nat) (version : Nat)
  | meta (lastBackup : Nat) (backupKey : Key)
deriving DecidableEq, Repr

/-- The AsyncStorage contents. -/
def Store : Type := Key → Option DVal

def emptyStore : Store := fun _ => none

def setKey (k : Key) (v : DVal) (st : Store) : Store :=
  fun q => if q = k then some v else st q

def removeKey (k : Key) (st : Store) : Store :=
  fun q => if q = k then none else st q

/-- Which storage calls reject, per key.  A failing call leaves the
store unchanged and surfaces as an exception to the caller. -/
structure FailSpec where
  setFails : Key → Bool
  removeFails : Key → Bool

def noFail : FailSpec := ⟨fun _ => false, fun _ => false⟩

/-- `AsyncStorage.setItem`, which may reject. -/
def asSet (fs : FailSpec) (k : Key) (v : DVal) (st : Store) : Except Unit Store :=
  if fs.setFails k then .error () else .ok (setKey k v st)

/-- `AsyncStorage.removeItem`, which may reject. -/
def asRemove (fs : FailSpec) (k : Key) (st : Store) : Except Unit Store :=
  if fs.removeFails k then .error () else .ok (removeKey k st)

/-! ## Backup utility (`createBackup`, `restoreFromBackup`) -/

/-- `createBackup(backupKey, data)`: writes the envelope
`{data, timestamp: now, version: 1}` under `backupKey`, then writes the
global metadata record; never throws — a rejection of either write is
caught and reported as `false`. -/
def createBackup (now : Nat) (fs : FailSpec) (backupKey : Key) (data : DVal)
    (st : Store) : Store × Bool :=
  match asSet fs backupKey (.env data now 1) st with
  | .error _ => (st, false)
  | .ok st1 =>
    match asSet fs Key.backupMeta (.meta now backupKey) st1 with
    | .error _ => (st1, false)
    | .ok st2 => (st2, true)

/-- `restoreFromBackup(backupKey)`: reads the envelope stored at
`backupKey` and returns its `data` field, or `null`/`undefined`
(modelled as `none`) when the key is absent or does not hold an
envelope. -/
def restoreFromBackup (st : Store) (backupKey : Key) : Option DVal :=
  match st backupKey with
  | none => none
  | some (.env data _ _) => some data
  | some _ => none

/-! ## Section hook (`useDiarySections`) -/

/-- The error conditions a section mutation can raise: the explicit
`'Section name already exists'` error thrown by `renameSection`, or a
propagated storage rejection. -/
inductive SecError where
  | nameExists
  | storageFailure
deriving DecidableEq, Repr

/-- Result of one section mutation: the final in-memory `sections`
state, the final store, and the error propagated to the caller (if
any). -/
structure SecResult where
  sections : List String
  store : Store
  error : Option SecError

/-- `addSection(sectionName)`: prepends the name, persists the list,
fires a best-effort backup, then commits the new list to memory.  On a
rejected persist the catch block rethrows without having touched the
in-memory state. -/
def addSection (now : Nat) (fs : FailSpec) (sectionName : String)
    (sections : List String) (st : Store) : SecResult :=
  let newSections := sectionName :: sections
  match asSet fs Key.sections (.secs newSections) st with
  | .error _ => ⟨sections, st, some .storageFailure⟩
  | .ok st1 =>
    let st2 := (createBackup now fs Key.backupSections (.secs newSections) st1).1
    ⟨newSections, st2, none⟩

/-- `deleteSection(sectionName)`: filters the name out, persists and
backs up the new list, removes the section's item key and its backup
item key, then commits to memory.  A rejection at any step rethrows,
leaving the in-memory state at its pre-operation value. -/
def deleteSection (now : Nat) (fs : FailSpec) (sectionName : String)
    (sections : List String) (st : Store) : SecResult :=
  let newSections := sections.filter (fun s => s ≠ sectionName)
  match asSet fs Key.sections (.secs newSections) st with
  | .error _ => ⟨sections, st, some .storageFailure⟩
  | .ok st1 =>
    let st2 := (createBackup now fs Key.backupSections (.secs newSections) st1).1
    match asRemove fs (Key.items sectionName) st2 with
    | .error _ => ⟨sections, st2, some .storageFailure⟩
    | .ok st3 =>
      match asRemove fs (Key.backupItems sectionName) st3 with
      | .error _ => ⟨sections, st3, some .storageFailure⟩
      | .ok st4 => ⟨newSections, st4, none⟩

/-- `renameSection(oldName, newName)`: throws
`'Section name already exists'` when `newName` is already in the
in-memory list (before touching the store); otherwise rewrites the
list substituting `oldName → newName`, persists it, copies the stored
item partition (if any) from the old item key to the new one (backing
up the copy), deletes the old item key and old item-backup key, backs
up the renamed list, and commits to memory. -/
def renameSection (now : Nat) (fs : FailSpec) (oldName newName : String)
    (sections : List String) (st : Store) : SecResult :=
  if newName ∈ sections then ⟨sections, st, some .nameExists⟩
  else
    let updatedSections := sections.map (fun s => if s = oldName then newName else s)
    match asSet fs Key.sections (.secs updatedSections) st with
    | .error _ => ⟨sections, st, some .storageFailure⟩
    | .ok st1 =>
      let afterCopy : Except Unit Store :=
        match st1 (Key.items oldName) with
        | none => .ok st1
        | some storedItems =>
          match asSet fs (Key.items newName) storedItems st1 with
          | .error e => .error e
          | .ok st2 =>
            .ok (createBackup now fs (Key.backupItems newName) storedItems st2).1
      match afterCopy with
      | .error _ => ⟨sections, st1, some .storageFailure⟩
      | .ok st3 =>
        match asRemove fs (Key.items oldName) st3 with
        | .error _ => ⟨sections, st3, some .storageFailure⟩
        | .ok st4 =>
          match asRemove fs (Key.backupItems oldName) st4 with
          | .error _ => ⟨sections, st4, some .storageFailure⟩
          | .ok st5 =>
            let st6 := (createBackup now fs Key.backupSections (.secs updatedSections) st5).1
            ⟨updatedSections, st6, none⟩

/-! ## Item hook (`useDiaryItems(sectionName)`) -/

/-- Result of one item mutation: the final in-memory `items` state, the
final store, and whether the operation threw to its caller. -/
structure ItemOpResult where
  items : List Entry
  store : Store
  threw : Bool

/-- `saveItems(itemsToSave)`: writes the main item key for the current
section, then fires a best-effort backup of the same list; rethrows
only when the main write rejects. -/
def saveItems (now : Nat) (fs : FailSpec) (sectionName : String)
    (itemsToSave : List Entry) (st : Store) : Except Unit Store :=
  match asSet fs (Key.items sectionName) (.ents itemsToSave) st with
  | .error e => .error e
  | .ok st1 =>
    .ok (createBackup now fs (Key.backupItems sectionName) (.ents itemsToSave) st1).1

/-- The entry `addItem` constructs:
`{id: Date.now(), text, createdAt: now, lastModified: now}`. -/
def newEntry (now : Nat) (text : String) : Entry :=
  ⟨some now, some text, some now, some now⟩

/-- `addItem(text)`: prepends the new entry, optimistically updates the
in-memory state, persists; on a rejected persist the catch block
reverts the in-memory state to the pre-mutation list and rethrows. -/
def addItem (now : Nat) (fs : FailSpec) (sectionName : String) (text : String)
    (items : List Entry) (st : Store) : ItemOpResult :=
  let newItems := newEntry now text :: items
  match saveItems now fs sectionName newItems st with
  | .ok st1 => ⟨newItems, st1, false⟩
  | .error _ => ⟨items, st, true⟩

/-- A JavaScript array hole, as produced by assigning past the end of
an array (`updatedItems[index] = …` with `index > length`).  Holes
serialize as `null`; they are modelled as an entry with no fields. -/
def nullEntry : Entry := ⟨none, none, none, none⟩

/-- The array update performed by `updateItem`:
`updatedItems[index] = {...updatedItems[index], text, lastModified}`.
The source has no bounds check.  In range this replaces the entry,
keeping its other fields.  At or past the end, the spread of
`undefined` contributes nothing, so the assignment extends the array
with an object holding only `text` and `lastModified` (padding with
holes when `index > length`). -/
def jsUpdateAt (items : List Entry) (index : Nat) (text : String) (now : Nat) :
    List Entry :=
  if h : index < items.length then
    items.set index
      { items.get ⟨index, h⟩ with text := some text, lastModified := some now }
  else
    items ++ List.replicate (index - items.length) nullEntry ++
      [⟨none, some text, none, some now⟩]

/-- `updateItem(index, text)`: applies `jsUpdateAt`, optimistically
updates the in-memory state, persists; on a rejected persist it reverts
the in-memory state and rethrows. -/
def updateItem (now : Nat) (fs : FailSpec) (sectionName : String) (index : Nat)
    (text : String) (items : List Entry) (st : Store) : ItemOpResult :=
  let updatedItems := jsUpdateAt items index text now
  match saveItems now fs sectionName updatedItems st with
  | .ok st1 => ⟨updatedItems, st1, false⟩
  | .error _ => ⟨items, st, true⟩

/-- `items.filter((_, i) => i !== index)`. -/
def removeAtIndex (items : List Entry) (index : Nat) : List Entry :=
  (items.enum.filter (fun p => p.1 ≠ index)).map Prod.snd

/-- `deleteItem(index)`: filters out the positional index,
optimistically updates, persists; reverts and rethrows on failure. -/
def deleteItem (now : Nat) (fs : FailSpec) (sectionName : String) (index : Nat)
    (items : List Entry) (st : Store) : ItemOpResult :=
  let updatedItems := removeAtIndex items index
  match saveItems now fs sectionName updatedItems st with
  | .ok st1 => ⟨updatedItems, st1, false⟩
  | .error _ => ⟨items, st, true⟩

/-- `clearAllItems()`: sets the in-memory state to `[]`, persists `[]`;
its catch block logs and rethrows but — unlike the other three item
mutators — does not revert the in-memory state. -/
def clearAllItems (now : Nat) (fs : FailSpec) (sectionName : String)
    (items : List Entry) (st : Store) : ItemOpResult :=
  match saveItems now fs sectionName ([] : List Entry) st with
  | .ok st1 => ⟨[], st1, false⟩
  | .error _ => ⟨[], st, true⟩

/-! ## Archive manager (`useBackupManager`) -/

/-- The parts of an archive snapshot that `restoreData` reads:
`backupData.sections` and `backupData.items` (an object mapping section
names to entry arrays; modelled as an association list in the object's
key order, keys unique as in any JavaScript object).  The `metadata`
and `totalItems` fields are not consulted by `restoreData` and are
omitted. -/
structure Snapshot where
  sections : List String
  items : List (String × List Entry)

/-- `x ? JSON.parse(x) : []` for a section-name array: an absent key
yields `[]`.  (A key holding a value of any other shape cannot arise
from the app's own writes; it is coerced to `[]` here.) -/
def asStrList : Option DVal → List String
  | some (.secs l) => l
  | _ => []

/-- `x ? JSON.parse(x) : []` for an item array: an absent key yields
`[]`.  (A key holding a value of any other shape cannot arise from the
app's own writes; it is coerced to `[]` here.) -/
def asEntries : Option DVal → List Entry
  | some (.ents l) => l
  | _ => []

/-- Iteration order of a JavaScript `Set` built by insertion: first
occurrence wins.  `jsSetUnionAux seen l` drops from `l` every element
already seen. -/
def jsSetUnionAux (seen : List String) : List String → List String
  | [] => []
  | x :: xs =>
    if x ∈ seen then jsSetUnionAux seen xs
    else x :: jsSetUnionAux (x :: seen) xs

/-- `[...new Set(l)]`: de-duplication keeping the first occurrence of
each element, in order. -/
def jsSetDedup (l : List String) : List String := jsSetUnionAux [] l

/-- `l.map (·.id)` — the ids collected into `existingIds` by the merge
loop (`new Set(existingItems.map(item => item.id))`). -/
def entryIds (l : List Entry) : List (Option Nat) := l.map (fun e => e.id)

/-- The per-section merge of `restoreData`'s merge mode:
`existingIds = new Set(existingItems.map(item => item.id))`,
`itemsToAdd = newItems.filter(item => !existingIds.has(item.id))`,
`mergedItems = [...existingItems, ...itemsToAdd]`. -/
def mergeSectionItems (existingItems newItems : List Entry) : List Entry :=
  existingItems ++
    newItems.filter (fun it => decide (¬ it.id ∈ entryIds existingItems))

/-- The merge-mode item loop of `restoreData`: for each
`[section, newItems]` of `Object.entries(backupData.items)`, reads the
section's current stored items, keeps only incoming entries whose id is
not already present, and writes existing ++ new back. -/
def mergeItemsLoop : List (String × List Entry) → Store → Store
  | [], st => st
  | (sectionName, newItems) :: rest, st =>
    mergeItemsLoop rest
      (setKey (Key.items sectionName)
        (.ents (mergeSectionItems (asEntries (st (Key.items sectionName))) newItems))
        st)

/-- The replace-mode deletion loop of `restoreData`: removes the item
key of every current section. -/
def removeItemsLoop : List String → Store → Store
  | [], st => st
  | sectionName :: rest, st =>
    removeItemsLoop rest (removeKey (Key.items sectionName) st)

/-- The replace-mode write loop of `restoreData`: writes each entry of
`backupData.items` verbatim under its item key. -/
def writeItemsLoop : List (String × List Entry) → Store → Store
  | [], st => st
  | (sectionName, its) :: rest, st =>
    writeItemsLoop rest (setKey (Key.items sectionName) (.ents its) st)

/-- Replace mode of `restoreData`: reads the current section list,
removes every current section's item key, overwrites the section list
with `backupData.sections`, then writes every entry of
`backupData.items` verbatim. -/
def replaceRestore (snap : Snapshot) (st : Store) : Store :=
  let currentSections := asStrList (st Key.sections)
  let st1 := removeItemsLoop currentSections st
  let st2 := setKey Key.sections (.secs snap.sections) st1
  writeItemsLoop snap.items st2

/-- Merge mode of `restoreData`: unions the current and incoming
section lists via `[...new Set([...current, ...incoming])]`, writes the
union, then runs the per-section id-de-duplicating item merge. -/
def mergeRestore (snap : Snapshot) (st : Store) : Store :=
  let currentSections := asStrList (st Key.sections)
  let mergedSections := jsSetDedup (currentSections ++ snap.sections)
  let st1 := setKey Key.sections (.secs mergedSections) st
  mergeItemsLoop snap.items st1

/-- `restoreData(backupData, replaceExisting)`.  (Storage rejections
inside the restore are rethrown by the source; no claim under
verification involves a failing restore write, so they are not
modelled here.) -/
def restoreData (snap : Snapshot) (replaceExisting : Bool) (st : Store) : Store :=
  if replaceExisting then replaceRestore snap st else mergeRestore snap st

/-- Stores in which the two main-data key families hold values of the
shape the app itself writes (or are absent).  On such stores the `[]`
coercions of `asStrList` / `asEntries` are exercised only at absent
keys, exactly matching `x ? JSON.parse(x) : []`. -/
def WFStore (st : Store) : Prop :=
  (st Key.sections = none ∨ ∃ l, st Key.sections = some (.secs l)) ∧
  ∀ s, st (Key.items s) = none ∨ ∃ es, st (Key.items s) = some (.ents es)

/-! ## Dynamic JavaScript values and `validateBackupData`

`validateBackupData` runs on arbitrary parsed JSON, so it is embedded
over a universe of dynamic values.  Own-property access is modelled
(object fields, array canonical indices and `length`, string indices
and `length`); prototype-inherited properties (array/string methods)
are function values outside this universe and are not modelled. -/

inductive JValue where
  | null
  | bool (b : Bool)
  | num (n : Int)
  | str (s : String)
  | arr (elems : List JValue)
  | obj (fields : List (String × JValue))

/-- JavaScript truthiness of a JSON value. -/
def truthy : JValue → Bool
  | .null => false
  | .bool b => b
  | .num n => n != 0
  | .str s => s ≠ ""
  | .arr _ => true
  | .obj _ => true

/-- Truthiness of a possibly-`undefined` value. -/
def truthyOpt : Option JValue → Bool
  | none => false
  | some v => truthy v

/-- `Array.isArray`. -/
def isArrayV : JValue → Bool
  | .arr _ => true
  | _ => false

def isArrayOpt : Option JValue → Bool
  | none => false
  | some v => isArrayV v

/-- `typeof` on a JSON value (`typeof null` is `'object'`). -/
def jsTypeof : JValue → String
  | .null => "object"
  | .bool _ => "boolean"
  | .num _ => "number"
  | .str _ => "string"
  | .arr _ => "object"
  | .obj _ => "object"

def typeofOpt : Option JValue → String
  | none => "undefined"
  | some v => jsTypeof v

/-- ToString of a JSON value, as used when it becomes a property key
(`items[section]`): strings unchanged, numbers in decimal, arrays
joined by commas, plain objects `'[object Object]'`.  (In a real join,
`null` elements render as the empty string; here they render as
`'null'` — the difference only affects exotic nested-array keys.) -/
def jsToString : JValue → String
  | .null => "null"
  | .bool b => if b then "true" else "false"
  | .num n => toString n
  | .str s => s
  | .arr es => String.intercalate "," (es.attach.map (fun e => jsToString e.1))
  | .obj _ => "[object Object]"
decreasing_by
  simp only [JValue.arr.sizeOf_spec]
  have h := List.sizeOf_lt_of_mem e.2
  omega

/-- The decimal value of an ASCII digit character, if it is one. -/
def charDigit? (c : Char) : Option Nat :=
  if 48 ≤ c.toNat ∧ c.toNat ≤ 57 then some (c.toNat - 48) else none

/-- Left-to-right accumulation of the remaining digits of a decimal
numeral; fails on any non-digit. -/
def parseDigitsAux : Nat → List Char → Option Nat
  | acc, [] => some acc
  | acc, c :: cs =>
    match charDigit? c with
    | some d => parseDigitsAux (10 * acc + d) cs
    | none => none

/-- The canonical array index denoted by a string key, if any: `'0'`,
`'17'`, … but not `'007'`, `'-1'` or `' 1'` (a property key is an array
index only when it is the canonical decimal numeral of the index). -/
def canonIndex (k : String) : Option Nat :=
  match k.data with
  | [] => none
  | c :: cs =>
    match charDigit? c with
    | none => none
    | some d => if d = 0 ∧ cs ≠ [] then none else parseDigitsAux d cs

/-- First-match field lookup in an object literal. -/
def lookupField : List (String × JValue) → String → Option JValue
  | [], _ => none
  | (k, v) :: rest, key => if k = key then some v else lookupField rest key

/-- Own-property access `v[key]`; `none` is JavaScript `undefined`. -/
def jsGetField : JValue → String → Option JValue
  | .obj fields, key => lookupField fields key
  | .arr es, key =>
    if key = "length" then some (.num es.length)
    else
      match canonIndex key with
      | some i => es[i]?
      | none => none
  | .str s, key =>
    if key = "length" then some (.num s.length)
    else
      match canonIndex key with
      | some i => (s.data[i]?).map (fun c => .str (String.mk [c]))
      | none => none
  | _, _ => none

/-- The `{isValid, error}` record returned by `validateBackupData`. -/
structure ValidationResult where
  isValid : Bool
  error : Option String
deriving DecidableEq, Repr

/-- The per-section loop of `validateBackupData`:
`if (data.items[section] && !Array.isArray(data.items[section]))`
rejects; otherwise continue. -/
def checkSectionItems (items : JValue) : List JValue → ValidationResult
  | [] => ⟨true, none⟩
  | sec :: rest =>
    let v := jsGetField items (jsToString sec)
    if truthyOpt v && !isArrayOpt v then
      ⟨false, some ("Items for section \"" ++ jsToString sec ++ "\" must be an array")⟩
    else checkSectionItems items rest

/-- `validateBackupData(data)`: requires truthy `data`, truthy
`metadata`/`sections`/`items` fields, `sections` an array, `items` of
`typeof` `'object'`, and for every name in `sections` a lookup in
`items` that is absent or an array.  Never throws. -/
def validateBackupData (data : JValue) : ValidationResult :=
  if !truthy data then ⟨false, some "No data found"⟩
  else if !truthyOpt (jsGetField data "metadata") ||
          !truthyOpt (jsGetField data "sections") ||
          !truthyOpt (jsGetField data "items") then
    ⟨false, some "Missing required fields"⟩
  else
    match jsGetField data "sections" with
    | some (JValue.arr ss) =>
      if typeofOpt (jsGetField data "items") ≠ "object" then
        ⟨false, some "Items must be an object"⟩
      else
        match jsGetField data "items" with
        | some itemsVal => checkSectionItems itemsVal ss
        | none => ⟨true, none⟩
    | _ => ⟨false, some "Sections must be an array"⟩

/-! ## Basic store lemmas -/

@[simp]
theorem setKey_apply (k : Key) (v : DVal) (st : Store) (q : Key) :
    setKey k v st q = if q = k then some v else st q := rfl

@[simp]
theorem removeKey_apply (k : Key) (st : Store) (q : Key) :
    removeKey k st q = if q = k then none else st q := rfl

theorem setKey_self_eq (k : Key) (v : DVal) (st : Store) (h : st k = some v) :
    setKey k v st = st := by
  funext q
  by_cases hq : q = k
  · simp [setKey, hq, h.symm]
  · simp [setKey, hq]

/-- With no injected failures, one `saveItems` call writes the main
item key, the backup envelope, and the backup metadata. -/
theorem saveItems_noFail (now : Nat) (s : String) (l : List Entry) (st : Store) :
    saveItems now noFail s l st =
      .ok (setKey Key.backupMeta (.meta now (Key.backupItems s))
        (setKey (Key.backupItems s) (.env (.ents l) now 1)
          (setKey (Key.items s) (.ents l) st))) := rfl

/-- The substitution `renameSection` applies to the section list is
injective on a duplicate-free list when the new name is fresh, so the
renamed list is again duplicate-free. -/
theorem nodup_map_rename (sections : List String) (oldName newName : String)
    (hnd : sections.Nodup) (hmem : newName ∉ sections) :
    (sections.map (fun s => if s = oldName then newName else s)).Nodup := by
  apply List.Nodup.map_on ?_ hnd
  intro a ha b hb hfab
  by_cases hao : a = oldName <;> by_cases hbo : b = oldName
  · rw [hao, hbo]
  · rw [if_pos hao, if_neg hbo] at hfab
    exact absurd (hfab ▸ hb) hmem
  · rw [if_neg hao, if_pos hbo] at hfab
    exact absurd (hfab ▸ ha) hmem
  · rwa [if_neg hao, if_neg hbo] at hfab

/-- In every outcome, the in-memory section list `renameSection` leaves
behind is either the pre-operation list (collision or storage failure)
or, on success, the list with `oldName` substituted by a fresh
`newName`. -/
theorem renameSection_sections_eq (now : Nat) (fs : FailSpec)
    (oldName newName : String) (sections : List String) (st : Store) :
    (renameSection now fs oldName newName sections st).sections = sections ∨
    (newName ∉ sections ∧
      (renameSection now fs oldName newName sections st).sections =
        sections.map (fun s => if s = oldName then newName else s)) := by
  by_cases hmem : newName ∈ sections
  · left
    simp [renameSection, hmem]
  · unfold renameSection
    rw [if_neg hmem]
    simp only []
    split
    · left; rfl
    · split
      · left; rfl
      · split
        · left; rfl
        · split
          · left; rfl
          · right; exact ⟨hmem, rfl⟩

/-! ## C1 — rollback of in-memory state on persistence failure -/

/-- C1 counterexample: when the persist inside `clearAllItems` rejects,
the error is propagated but the in-memory list is left at `[]`, not
reverted to the pre-mutation one-element list: the claim's universal
rollback statement fails on `clearAllItems`. -/
theorem claim1_rollback_counterexample :
    (clearAllItems 2 ⟨fun k => decide (k = Key.items "A"), fun _ => false⟩ "A"
        [⟨some 1, some "hi", some 1, some 1⟩] emptyStore).threw = true ∧
    (clearAllItems 2 ⟨fun k => decide (k = Key.items "A"), fun _ => false⟩ "A"
        [⟨some 1, some "hi", some 1, some 1⟩] emptyStore).items ≠
      [⟨some 1, some "hi", some 1, some 1⟩] := by
  exact ⟨rfl, by decide⟩

/-- C1 (amended): when the persistence step rejects, `addItem`,
`updateItem` and `deleteItem` revert the in-memory list to its
pre-mutation value, leave the store unchanged and propagate the error;
`clearAllItems` also leaves the store unchanged and propagates the
error, but leaves the in-memory list at `[]` instead of reverting it. -/
theorem claim1_rollback_amended (now : Nat) (fs : FailSpec)
    (sectionName text : String) (index : Nat) (items : List Entry) (st : Store)
    (hfail : fs.setFails (Key.items sectionName) = true) :
    addItem now fs sectionName text items st = ⟨items, st, true⟩ ∧
    updateItem now fs sectionName index text items st = ⟨items, st, true⟩ ∧
    deleteItem now fs sectionName index items st = ⟨items, st, true⟩ ∧
    clearAllItems now fs sectionName items st = ⟨[], st, true⟩ := by
  refine ⟨?_, ?_, ?_, ?_⟩ <;>
    simp [addItem, updateItem, deleteItem, clearAllItems, saveItems, asSet, hfail]

/-- C1 witness: the amended rollback theorem at a concrete failing
store write. -/
theorem claim1_rollback_witness :
    (⟨fun k => decide (k = Key.items "A"), fun _ => false⟩ : FailSpec).setFails
        (Key.items "A") = true ∧
    addItem 3 ⟨fun k => decide (k = Key.items "A"), fun _ => false⟩ "A" "x"
        [] emptyStore = ⟨[], emptyStore, true⟩ :=
  ⟨by decide,
   (claim1_rollback_amended 3 _ "A" "x" 0 [] emptyStore (by decide)).1⟩

/-! ## C2 — `updateItem` bounds behaviour -/

/-- C2 counterexample: `updateItem` at index 0 of an empty list — an
out-of-range index — signals no error and does persist: it writes a
one-element list whose entry carries only `text` and `lastModified`. -/
theorem claim2_update_counterexample :
    (updateItem 5 noFail "A" 0 "x" [] emptyStore).threw = false ∧
    (updateItem 5 noFail "A" 0 "x" [] emptyStore).store (Key.items "A") =
      some (.ents [⟨none, some "x", none, some 5⟩]) := by
  exact ⟨rfl, by decide⟩

/-- C2 (amended): for `0 ≤ index < length`, `updateItem` replaces the
entry at `index`, setting `text` and refreshing `lastModified` and
keeping all its other fields; but it performs no bounds check: for
`index ≥ length` it signals no error either, and in every case it
persists the resulting list (for `index ≥ length`, an extension of
the list with an entry holding only `text` and `lastModified`,
preceded by holes when `index > length`). -/
theorem claim2_update_amended (now : Nat) (sectionName text : String)
    (index : Nat) (items : List Entry) (st : Store) :
    (updateItem now noFail sectionName index text items st).threw = false ∧
    (updateItem now noFail sectionName index text items st).store
        (Key.items sectionName) =
      some (.ents (updateItem now noFail sectionName index text items st).items) ∧
    (∀ h : index < items.length,
      (updateItem now noFail sectionName index text items st).items =
        items.set index
          { items.get ⟨index, h⟩ with text := some text, lastModified := some now }) ∧
    (items.length ≤ index →
      (updateItem now noFail sectionName index text items st).items =
        items ++ List.replicate (index - items.length) nullEntry ++
          [⟨none, some text, none, some now⟩]) := by
  refine ⟨rfl, ?_, ?_, ?_⟩
  · simp [updateItem, saveItems_noFail]
  · intro h
    simp [updateItem, saveItems_noFail, jsUpdateAt, h]
  · intro h
    simp [updateItem, saveItems_noFail, jsUpdateAt, Nat.not_lt.mpr h]

/-- C2 witness: the amended theorem at an in-range index and at an
out-of-range index. -/
theorem claim2_update_witness :
    (updateItem 7 noFail "A" 0 "x" [⟨some 1, some "a", some 1, some 1⟩]
        emptyStore).items = [⟨some 1, some "x", some 1, some 7⟩] ∧
    (updateItem 7 noFail "A" 1 "x" [⟨some 1, some "a", some 1, some 1⟩]
        emptyStore).items =
      [⟨some 1, some "a", some 1, some 1⟩, ⟨none, some "x", none, some 7⟩] := by
  constructor
  · have h := (claim2_update_amended 7 "A" "x" 0
      [⟨some 1, some "a", some 1, some 1⟩] emptyStore).2.2.1 (by decide)
    simpa using h
  · have h := (claim2_update_amended 7 "A" "x" 1
      [⟨some 1, some "a", some 1, some 1⟩] emptyStore).2.2.2 (by decide)
    simpa using h

/-! ## C3 — section-name uniqueness -/

/-- C3 counterexample: `addSection` applied to a name already present
produces a section list with two equal names — uniqueness is not an
invariant of the store. -/
theorem claim3_uniqueness_counterexample :
    (addSection 0 noFail "A" ["A"] emptyStore).sections = ["A", "A"] ∧
    ¬ (addSection 0 noFail "A" ["A"] emptyStore).sections.Nodup := by
  exact ⟨rfl, by decide⟩

/-- C3 (amended): starting from a duplicate-free section list,
`deleteSection` and `renameSection` preserve uniqueness in every
outcome, and `addSection` preserves it when the added name is not
already present; `addSection` itself performs no duplicate check, so
adding a present name yields a duplicate. -/
theorem claim3_uniqueness_amended (now : Nat) (fs : FailSpec)
    (name oldName newName : String) (sections : List String) (st : Store)
    (hnd : sections.Nodup) :
    (name ∉ sections → (addSection now fs name sections st).sections.Nodup) ∧
    (deleteSection now fs name sections st).sections.Nodup ∧
    (renameSection now fs oldName newName sections st).sections.Nodup := by
  refine ⟨?_, ?_, ?_⟩
  · intro hmem
    cases hb : fs.setFails Key.sections <;>
      simp [addSection, asSet, hb, hnd, hmem]
  · cases hb1 : fs.setFails Key.sections <;>
      cases hb2 : fs.removeFails (Key.items name) <;>
      cases hb3 : fs.removeFails (Key.backupItems name) <;>
      simp [deleteSection, asSet, asRemove, hb1, hb2, hb3] <;>
      first
      | exact hnd
      | exact hnd.filter _
  · rcases renameSection_sections_eq now fs oldName newName sections st with
      h | ⟨hmem, h⟩
    · rw [h]; exact hnd
    · rw [h]; exact nodup_map_rename sections oldName newName hnd hmem

/-- C3 witness: the amended preservation theorem at concrete inputs. -/
theorem claim3_uniqueness_witness :
    (addSection 0 noFail "B" ["A"] emptyStore).sections.Nodup ∧
    (renameSection 0 noFail "A" "C" ["A"] emptyStore).sections.Nodup := by
  have h := claim3_uniqueness_amended 0 noFail "B" "A" "C" ["A"] emptyStore
    (by decide)
  exact ⟨h.1 (by decide), h.2.2⟩

/-! ## C6 — rename collision is checked first and fails atomically -/

/-- C6: when `newName` is already in the section list, `renameSection`
fails with the distinguishable name-collision error before touching
anything: the in-memory list and the whole store (hence `oldName`'s
item partition and every backup key) are returned unchanged. -/
theorem claim6_rename_collision (now : Nat) (fs : FailSpec)
    (oldName newName : String) (sections : List String) (st : Store)
    (hmem : newName ∈ sections) :
    renameSection now fs oldName newName sections st =
      ⟨sections, st, some .nameExists⟩ := by
  simp [renameSection, hmem]

/-- C6 witness: the collision theorem at a concrete colliding rename. -/
theorem claim6_rename_collision_witness :
    ("B" ∈ ["A", "B"]) ∧
    renameSection 1 noFail "A" "B" ["A", "B"] emptyStore =
      ⟨["A", "B"], emptyStore, some .nameExists⟩ :=
  ⟨by decide,
   claim6_rename_collision 1 noFail "A" "B" ["A", "B"] emptyStore (by decide)⟩

/-! ## C8 — id stability -/

/-- C8: two consecutive `addItem` calls at distinct clock values
produce two entries with distinct ids, and `updateItem` at an in-range
index never changes the id (or `createdAt`) of the entry at that
index, whether or not the persist succeeds. -/
theorem claim8_id_stability :
    (∀ (t1 t2 : Nat) (sectionName textA textB : String) (items : List Entry)
        (st : Store), t1 ≠ t2 →
      (addItem t2 noFail sectionName textB
          (addItem t1 noFail sectionName textA items st).items
          (addItem t1 noFail sectionName textA items st).store).items =
        newEntry t2 textB :: newEntry t1 textA :: items ∧
      (newEntry t2 textB).id ≠ (newEntry t1 textA).id) ∧
    (∀ (now : Nat) (fs : FailSpec) (sectionName text : String) (index : Nat)
        (items : List Entry) (st : Store) (h : index < items.length),
      ∃ e, (updateItem now fs sectionName index text items st).items[index]? =
          some e ∧
        e.id = (items.get ⟨index, h⟩).id ∧
        e.createdAt = (items.get ⟨index, h⟩).createdAt) := by
  constructor
  · intro t1 t2 sectionName textA textB items st hne
    refine ⟨rfl, ?_⟩
    simp [newEntry]
    exact fun h => hne h.symm
  · intro now fs sectionName text index items st h
    cases hb : fs.setFails (Key.items sectionName) with
    | true =>
      refine ⟨items.get ⟨index, h⟩, ?_, rfl, rfl⟩
      have hrev : (updateItem now fs sectionName index text items st).items =
          items := by
        simp [updateItem, saveItems, asSet, hb]
      rw [hrev]
      simp [List.getElem?_eq_getElem h, List.get_eq_getElem]
    | false =>
      refine ⟨{ items.get ⟨index, h⟩ with
        text := some text, lastModified := some now }, ?_, rfl, rfl⟩
      have hupd : (updateItem now fs sectionName index text items st).items =
          items.set index
            { items.get ⟨index, h⟩ with
              text := some text, lastModified := some now } := by
        simp [updateItem, saveItems, asSet, hb, createBackup, jsUpdateAt, h]
      rw [hupd]
      exact List.getElem?_set_eq_of_lt _ h

/-- C8 witness: the id-stability theorem at concrete clock values and a
concrete in-range update. -/
theorem claim8_id_stability_witness :
    (addItem 2 noFail "A" "b" (addItem 1 noFail "A" "a" [] emptyStore).items
        (addItem 1 noFail "A" "a" [] emptyStore).store).items =
      [newEntry 2 "b", newEntry 1 "a"] ∧
    (newEntry 2 "b").id ≠ (newEntry 1 "a").id ∧
    (∃ e, (updateItem 9 noFail "A" 0 "z" [⟨some 4, some "a", some 4, some 4⟩]
        emptyStore).items[0]? = some e ∧ e.id = some 4 ∧ e.createdAt = some 4) := by
  have h1 := claim8_id_stability.1 1 2 "A" "a" "b" [] emptyStore (by decide)
  have h2 := claim8_id_stability.2 9 noFail "A" "z" 0
    [⟨some 4, some "a", some 4, some 4⟩] emptyStore (by decide)
  exact ⟨h1.1, h1.2, by simpa using h2⟩

/-! ## C7 — backup mirrors main -/

/-- After a mutation, the backup key `bakKey` holds an envelope whose
payload is deep-equal to the value persisted under `mainKey`. -/
def backupMirrorsMain (st : Store) (mainKey bakKey : Key) : Prop :=
  ∃ v, st mainKey = some v ∧ restoreFromBackup st bakKey = some v

/-- The full effect of a failure-free `addSection`. -/
theorem addSection_noFail (now : Nat) (name : String) (sections : List String)
    (st : Store) :
    addSection now noFail name sections st =
      ⟨name :: sections,
       setKey Key.backupMeta (.meta now Key.backupSections)
         (setKey Key.backupSections (.env (.secs (name :: sections)) now 1)
           (setKey Key.sections (.secs (name :: sections)) st)), none⟩ := rfl

/-- The full effect of a failure-free `deleteSection`. -/
theorem deleteSection_noFail (now : Nat) (name : String)
    (sections : List String) (st : Store) :
    deleteSection now noFail name sections st =
      ⟨sections.filter (fun s => s ≠ name),
       removeKey (Key.backupItems name)
         (removeKey (Key.items name)
           (setKey Key.backupMeta (.meta now Key.backupSections)
             (setKey Key.backupSections
               (.env (.secs (sections.filter (fun s => s ≠ name))) now 1)
               (setKey Key.sections
                 (.secs (sections.filter (fun s => s ≠ name))) st)))), none⟩ := rfl

/-- The full effect of a failure-free successful `renameSection` when
the old section has no stored item partition (the copy step is
skipped). -/
theorem renameSection_noFail_none (now : Nat) (oldName newName : String)
    (sections : List String) (st : Store) (hmem : newName ∉ sections)
    (hv : st (Key.items oldName) = none) :
    renameSection now noFail oldName newName sections st =
      ⟨sections.map (fun s => if s = oldName then newName else s),
       setKey Key.backupMeta (.meta now Key.backupSections)
         (setKey Key.backupSections
           (.env (.secs (sections.map
             (fun s => if s = oldName then newName else s))) now 1)
           (removeKey (Key.backupItems oldName)
             (removeKey (Key.items oldName)
               (setKey Key.sections
                 (.secs (sections.map
                   (fun s => if s = oldName then newName else s))) st)))),
       none⟩ := by
  unfold renameSection
  rw [if_neg hmem]
  simp [asSet, asRemove, noFail, createBackup, hv]

/-- The full effect of a failure-free successful `renameSection` when
the old section has a stored item partition `v`: the partition is
copied verbatim to the new item key, backed up, and the old keys are
removed. -/
theorem renameSection_noFail_some (now : Nat) (oldName newName : String)
    (sections : List String) (st : Store) (v : DVal)
    (hmem : newName ∉ sections) (hv : st (Key.items oldName) = some v) :
    renameSection now noFail oldName newName sections st =
      ⟨sections.map (fun s => if s = oldName then newName else s),
       setKey Key.backupMeta (.meta now Key.backupSections)
         (setKey Key.backupSections
           (.env (.secs (sections.map
             (fun s => if s = oldName then newName else s))) now 1)
           (removeKey (Key.backupItems oldName)
             (removeKey (Key.items oldName)
               (setKey Key.backupMeta (.meta now (Key.backupItems newName))
                 (setKey (Key.backupItems newName) (.env v now 1)
                   (setKey (Key.items newName) v
                     (setKey Key.sections
                       (.secs (sections.map
                         (fun s => if s = oldName then newName else s)))
                       st))))))),
       none⟩ := by
  unfold renameSection
  rw [if_neg hmem]
  simp [asSet, asRemove, noFail, createBackup, hv]

/-- C7: after every successful failure-free mutating operation of the
section store and the item store, `restoreFromBackup` on the
corresponding backup key returns the value just persisted under the
main key (for `renameSection`, both the renamed section list and — when
the renamed-to key is distinct and an item partition was copied — the
migrated item partition). -/
theorem claim7_backup_mirrors_main (now : Nat) (st : Store) :
    (∀ (name : String) (sections : List String),
      backupMirrorsMain (addSection now noFail name sections st).store
        Key.sections Key.backupSections) ∧
    (∀ (name : String) (sections : List String),
      backupMirrorsMain (deleteSection now noFail name sections st).store
        Key.sections Key.backupSections) ∧
    (∀ (oldName newName : String) (sections : List String),
      newName ∉ sections →
      backupMirrorsMain (renameSection now noFail oldName newName sections st).store
        Key.sections Key.backupSections ∧
      (oldName ≠ newName → ∀ v, st (Key.items oldName) = some v →
        backupMirrorsMain
          (renameSection now noFail oldName newName sections st).store
          (Key.items newName) (Key.backupItems newName))) ∧
    (∀ (sectionName text : String) (items : List Entry),
      backupMirrorsMain (addItem now noFail sectionName text items st).store
        (Key.items sectionName) (Key.backupItems sectionName)) ∧
    (∀ (sectionName text : String) (index : Nat) (items : List Entry),
      backupMirrorsMain (updateItem now noFail sectionName index text items st).store
        (Key.items sectionName) (Key.backupItems sectionName)) ∧
    (∀ (sectionName : String) (index : Nat) (items : List Entry),
      backupMirrorsMain (deleteItem now noFail sectionName index items st).store
        (Key.items sectionName) (Key.backupItems sectionName)) ∧
    (∀ (sectionName : String) (items : List Entry),
      backupMirrorsMain (clearAllItems now noFail sectionName items st).store
        (Key.items sectionName) (Key.backupItems sectionName)) := by
  refine ⟨?_, ?_, ?_, ?_, ?_, ?_, ?_⟩
  · intro name sections
    refine ⟨.secs (name :: sections), ?_, ?_⟩ <;>
      simp [addSection_noFail, restoreFromBackup]
  · intro name sections
    refine ⟨.secs (sections.filter (fun s => s ≠ name)), ?_, ?_⟩ <;>
      simp [deleteSection_noFail, restoreFromBackup]
  · intro oldName newName sections hmem
    constructor
    · cases hv : st (Key.items oldName) with
      | none =>
        refine ⟨.secs (sections.map
          (fun s => if s = oldName then newName else s)), ?_, ?_⟩ <;>
          simp [renameSection_noFail_none now oldName newName sections st hmem hv,
            restoreFromBackup]
      | some v =>
        refine ⟨.secs (sections.map
          (fun s => if s = oldName then newName else s)), ?_, ?_⟩ <;>
          simp [renameSection_noFail_some now oldName newName sections st v hmem hv,
            restoreFromBackup]
    · intro hne v hv
      have hne' : newName ≠ oldName := Ne.symm hne
      refine ⟨v, ?_, ?_⟩ <;>
        simp [renameSection_noFail_some now oldName newName sections st v hmem hv,
          restoreFromBackup, hne']
  · intro sectionName text items
    refine ⟨.ents (newEntry now text :: items), ?_, ?_⟩ <;>
      simp [addItem, saveItems_noFail, restoreFromBackup]
  · intro sectionName text index items
    refine ⟨.ents (jsUpdateAt items index text now), ?_, ?_⟩ <;>
      simp [updateItem, saveItems_noFail, restoreFromBackup]
  · intro sectionName index items
    refine ⟨.ents (removeAtIndex items index), ?_, ?_⟩ <;>
      simp [deleteItem, saveItems_noFail, restoreFromBackup]
  · intro sectionName items
    refine ⟨.ents [], ?_, ?_⟩ <;>
      simp [clearAllItems, saveItems_noFail, restoreFromBackup]

/-- C7 witness: the mirror theorem at concrete inputs, including a
successful rename whose hypotheses are discharged concretely. -/
theorem claim7_backup_mirrors_main_witness :
    backupMirrorsMain
      (addItem 5 noFail "A" "x" []
        (setKey (Key.items "A") (.ents []) emptyStore)).store
      (Key.items "A") (Key.backupItems "A") ∧
    backupMirrorsMain
      (renameSection 5 noFail "A" "B" ["A"]
        (setKey (Key.items "A") (.ents []) emptyStore)).store
      (Key.items "B") (Key.backupItems "B") := by
  have h := claim7_backup_mirrors_main 5
    (setKey (Key.items "A") (.ents []) emptyStore)
  refine ⟨h.2.2.2.1 "A" "x" [], ?_⟩
  exact (h.2.2.1 "A" "B" ["A"] (by decide)).2 (by decide) (.ents []) (by decide)

/-! ## Lemmas about `jsSetDedup` (JavaScript `Set` de-duplication) -/

theorem mem_jsSetUnionAux (a : String) :
    ∀ (l seen : List String), a ∈ jsSetUnionAux seen l ↔ a ∈ l ∧ a ∉ seen := by
  intro l
  induction l with
  | nil => intro seen; simp [jsSetUnionAux]
  | cons x xs ih =>
    intro seen
    by_cases hx : x ∈ seen
    · rw [jsSetUnionAux, if_pos hx, ih seen]
      simp only [List.mem_cons]
      constructor
      · rintro ⟨h1, h2⟩; exact ⟨Or.inr h1, h2⟩
      · rintro ⟨rfl | h1, h2⟩
        · exact absurd hx h2
        · exact ⟨h1, h2⟩
    · rw [jsSetUnionAux, if_neg hx]
      simp only [List.mem_cons, ih (x :: seen)]
      by_cases hax : a = x
      · subst hax; simp [hx]
      · simp [hax]

theorem jsSetUnionAux_eq_nil :
    ∀ (l seen : List String), (∀ a ∈ l, a ∈ seen) → jsSetUnionAux seen l = [] := by
  intro l
  induction l with
  | nil => intro seen _; rfl
  | cons x xs ih =>
    intro seen h
    have hx : x ∈ seen := h x (List.mem_cons_self x xs)
    rw [jsSetUnionAux, if_pos hx]
    exact ih seen (fun a ha => h a (List.mem_cons_of_mem x ha))

theorem jsSetUnionAux_append_absorb (l₂ : List String) :
    ∀ (l₁ seen : List String), (∀ a ∈ l₂, a ∈ l₁ ∨ a ∈ seen) →
      jsSetUnionAux seen (l₁ ++ l₂) = jsSetUnionAux seen l₁ := by
  intro l₁
  induction l₁ with
  | nil =>
    intro seen h
    rw [List.nil_append, jsSetUnionAux]
    exact jsSetUnionAux_eq_nil l₂ seen
      (fun a ha => ((h a ha).resolve_left (by simp)))
  | cons x xs ih =>
    intro seen h
    rw [List.cons_append]
    by_cases hx : x ∈ seen
    · rw [jsSetUnionAux, if_pos hx, jsSetUnionAux, if_pos hx]
      refine ih seen (fun a ha => ?_)
      rcases h a ha with h1 | h1
      · rcases List.mem_cons.mp h1 with rfl | h1
        · exact Or.inr hx
        · exact Or.inl h1
      · exact Or.inr h1
    · rw [jsSetUnionAux, if_neg hx, jsSetUnionAux, if_neg hx]
      congr 1
      refine ih (x :: seen) (fun a ha => ?_)
      rcases h a ha with h1 | h1
      · rcases List.mem_cons.mp h1 with rfl | h1
        · exact Or.inr (List.mem_cons_self a seen)
        · exact Or.inl h1
      · exact Or.inr (List.mem_cons_of_mem x h1)

theorem jsSetUnionAux_nodup :
    ∀ (l seen : List String), (jsSetUnionAux seen l).Nodup := by
  intro l
  induction l with
  | nil => intro seen; simp [jsSetUnionAux]
  | cons x xs ih =>
    intro seen
    by_cases hx : x ∈ seen
    · rw [jsSetUnionAux, if_pos hx]; exact ih seen
    · rw [jsSetUnionAux, if_neg hx]
      refine List.nodup_cons.mpr ⟨?_, ih (x :: seen)⟩
      intro hc
      exact ((mem_jsSetUnionAux x xs (x :: seen)).mp hc).2
        (List.mem_cons_self x seen)

theorem jsSetUnionAux_eq_self :
    ∀ (l seen : List String), l.Nodup → (∀ a ∈ l, a ∉ seen) →
      jsSetUnionAux seen l = l := by
  intro l
  induction l with
  | nil => intro seen _ _; rfl
  | cons x xs ih =>
    intro seen hnd h
    have hx : x ∉ seen := h x (List.mem_cons_self x xs)
    rw [jsSetUnionAux, if_neg hx]
    congr 1
    refine ih (x :: seen) (List.nodup_cons.mp hnd).2 (fun a ha hc => ?_)
    rcases List.mem_cons.mp hc with rfl | hc
    · exact (List.nodup_cons.mp hnd).1 ha
    · exact h a (List.mem_cons_of_mem x ha) hc

theorem mem_jsSetDedup (a : String) (l : List String) :
    a ∈ jsSetDedup l ↔ a ∈ l := by
  simp [jsSetDedup, mem_jsSetUnionAux]

theorem jsSetDedup_nodup (l : List String) : (jsSetDedup l).Nodup :=
  jsSetUnionAux_nodup l []

theorem jsSetDedup_of_nodup (l : List String) (h : l.Nodup) :
    jsSetDedup l = l :=
  jsSetUnionAux_eq_self l [] h (fun a _ hc => by cases hc)

theorem jsSetDedup_idem (l : List String) :
    jsSetDedup (jsSetDedup l) = jsSetDedup l :=
  jsSetDedup_of_nodup _ (jsSetDedup_nodup l)

theorem jsSetDedup_append_absorb (l₁ l₂ : List String)
    (h : ∀ a ∈ l₂, a ∈ l₁) :
    jsSetDedup (l₁ ++ l₂) = jsSetDedup l₁ :=
  jsSetUnionAux_append_absorb l₂ l₁ [] (fun a ha => Or.inl (h a ha))

/-! ## Lemmas about the merge loop -/

theorem entryIds_append (l₁ l₂ : List Entry) :
    entryIds (l₁ ++ l₂) = entryIds l₁ ++ entryIds l₂ := by
  simp [entryIds]

theorem mem_entryIds_mergeSectionItems (ex ns : List Entry) (it : Entry)
    (hit : it ∈ ns) : it.id ∈ entryIds (mergeSectionItems ex ns) := by
  rw [mergeSectionItems, entryIds_append]
  by_cases hid : it.id ∈ entryIds ex
  · exact List.mem_append_left _ hid
  · refine List.mem_append_right _ ?_
    rw [entryIds]
    refine List.mem_map.mpr ⟨it, ?_, rfl⟩
    rw [List.mem_filter]
    exact ⟨hit, by simpa using hid⟩

theorem mergeSectionItems_eq_self (ex ns : List Entry)
    (h : ∀ it ∈ ns, it.id ∈ entryIds ex) : mergeSectionItems ex ns = ex := by
  rw [mergeSectionItems, List.filter_eq_nil_iff.mpr, List.append_nil]
  intro it hit
  simpa using h it hit

theorem mergeItemsLoop_apply_ne (l : List (String × List Entry)) :
    ∀ (st : Store) (k : Key), (∀ s, k ≠ Key.items s) →
      mergeItemsLoop l st k = st k := by
  induction l with
  | nil => intro st k _; rfl
  | cons p rest ih =>
    rcases p with ⟨s, ns⟩
    intro st k hk
    rw [mergeItemsLoop, ih _ k hk]
    simp [hk s]

theorem mergeItemsLoop_preserve (l : List (String × List Entry)) :
    ∀ (st : Store) (s : String) (es₀ : List Entry),
      st (Key.items s) = some (.ents es₀) →
      ∃ es, mergeItemsLoop l st (Key.items s) = some (.ents es) ∧
        ∀ x ∈ entryIds es₀, x ∈ entryIds es := by
  induction l with
  | nil => intro st s es₀ h; exact ⟨es₀, h, fun x hx => hx⟩
  | cons p rest ih =>
    rcases p with ⟨s', ns⟩
    intro st s es₀ h
    rw [mergeItemsLoop]
    by_cases hss : s = s'
    · subst hss
      have hex : asEntries (st (Key.items s)) = es₀ := by rw [h]; rfl
      rw [hex]
      obtain ⟨es, hes, hsub⟩ := ih
        (setKey (Key.items s) (.ents (mergeSectionItems es₀ ns)) st) s
        (mergeSectionItems es₀ ns) (by simp)
      refine ⟨es, hes, fun x hx => hsub x ?_⟩
      rw [mergeSectionItems, entryIds_append]
      exact List.mem_append_left _ hx
    · have hkey : st (Key.items s) =
          (setKey (Key.items s')
            (.ents (mergeSectionItems (asEntries (st (Key.items s'))) ns)) st)
            (Key.items s) := by
        simp [hss]
      exact ih _ s es₀ (hkey ▸ h)

theorem mergeItemsLoop_post (l : List (String × List Entry)) :
    ∀ (st : Store), ∀ p ∈ l, ∃ es,
      mergeItemsLoop l st (Key.items p.1) = some (.ents es) ∧
      ∀ it ∈ p.2, it.id ∈ entryIds es := by
  induction l with
  | nil => intro st p hp; simp at hp
  | cons q rest ih =>
    rcases q with ⟨s, ns⟩
    intro st p hp
    rcases List.mem_cons.mp hp with rfl | hp'
    · rw [mergeItemsLoop]
      obtain ⟨es, hes, hsub⟩ := mergeItemsLoop_preserve rest
        (setKey (Key.items s)
          (.ents (mergeSectionItems (asEntries (st (Key.items s))) ns)) st)
        s (mergeSectionItems (asEntries (st (Key.items s))) ns) (by simp)
      exact ⟨es, hes, fun it hit =>
        hsub it.id (mem_entryIds_mergeSectionItems _ ns it hit)⟩
    · rw [mergeItemsLoop]
      exact ih _ p hp'

theorem mergeItemsLoop_noop (l : List (String × List Entry)) :
    ∀ (st : Store),
      (∀ p ∈ l, ∃ es, st (Key.items p.1) = some (.ents es) ∧
        ∀ it ∈ p.2, it.id ∈ entryIds es) →
      mergeItemsLoop l st = st := by
  induction l with
  | nil => intro st _; rfl
  | cons q rest ih =>
    rcases q with ⟨s, ns⟩
    intro st h
    obtain ⟨es, hes, hids⟩ := h (s, ns) (List.mem_cons_self _ _)
    rw [mergeItemsLoop]
    have hex : asEntries (st (Key.items s)) = es := by rw [hes]; rfl
    rw [hex, mergeSectionItems_eq_self es ns hids,
      setKey_self_eq _ _ _ hes]
    exact ih st (fun p hp => h p (List.mem_cons_of_mem _ hp))

/-! ## C4 — merge import idempotence -/

/-- C4: restoring the same snapshot twice in merge mode leaves exactly
the store produced by restoring it once — the section list and every
per-section item list (indeed every key) agree. -/
theorem claim4_merge_idempotent (snap : Snapshot) (st : Store)
    (hwf : WFStore st) :
    restoreData snap false (restoreData snap false st) =
      restoreData snap false st := by
  show mergeRestore snap (mergeRestore snap st) = mergeRestore snap st
  have hsec₁ : mergeRestore snap st Key.sections =
      some (.secs (jsSetDedup (asStrList (st Key.sections) ++ snap.sections))) := by
    unfold mergeRestore
    rw [mergeItemsLoop_apply_ne _ _ _ (fun s => by simp)]
    simp
  have habsorb :
      jsSetDedup (jsSetDedup (asStrList (st Key.sections) ++ snap.sections) ++
        snap.sections) =
      jsSetDedup (asStrList (st Key.sections) ++ snap.sections) := by
    rw [jsSetDedup_append_absorb]
    · exact jsSetDedup_idem _
    · intro a ha
      rw [mem_jsSetDedup]
      exact List.mem_append_right _ ha
  have hstep : mergeRestore snap (mergeRestore snap st) =
      mergeItemsLoop snap.items
        (setKey Key.sections
          (.secs (jsSetDedup (asStrList (mergeRestore snap st Key.sections) ++
            snap.sections)))
          (mergeRestore snap st)) := rfl
  rw [hstep, hsec₁]
  have hasl : asStrList (some (.secs (jsSetDedup
      (asStrList (st Key.sections) ++ snap.sections)))) =
      jsSetDedup (asStrList (st Key.sections) ++ snap.sections) := rfl
  rw [hasl, habsorb, setKey_self_eq _ _ _ hsec₁]
  refine mergeItemsLoop_noop snap.items (mergeRestore snap st) ?_
  intro p hp
  exact mergeItemsLoop_post snap.items _ p hp

/-- C4 witness: merge idempotence at a concrete snapshot over the empty
(trivially well-formed) store. -/
theorem claim4_merge_idempotent_witness :
    WFStore emptyStore ∧
    restoreData ⟨["A"], [("A", [⟨some 1, some "x", some 1, some 1⟩])]⟩ false
        (restoreData ⟨["A"], [("A", [⟨some 1, some "x", some 1, some 1⟩])]⟩
          false emptyStore) =
      restoreData ⟨["A"], [("A", [⟨some 1, some "x", some 1, some 1⟩])]⟩
        false emptyStore :=
  ⟨⟨Or.inl rfl, fun _ => Or.inl rfl⟩,
   claim4_merge_idempotent ⟨["A"], [("A", [⟨some 1, some "x", some 1, some 1⟩])]⟩
     emptyStore ⟨Or.inl rfl, fun _ => Or.inl rfl⟩⟩

/-! ## Lemmas about the replace loops -/

theorem removeItemsLoop_apply_ne (l : List String) :
    ∀ (st : Store) (k : Key), (∀ s ∈ l, k ≠ Key.items s) →
      removeItemsLoop l st k = st k := by
  induction l with
  | nil => intro st k _; rfl
  | cons c rest ih =>
    intro st k hk
    rw [removeItemsLoop,
      ih _ k (fun s hs => hk s (List.mem_cons_of_mem c hs))]
    simp [hk c (List.mem_cons_self c rest)]

theorem removeItemsLoop_apply_mem (l : List String) :
    ∀ (st : Store) (s : String), s ∈ l →
      removeItemsLoop l st (Key.items s) = none := by
  induction l with
  | nil => intro st s hs; simp at hs
  | cons c rest ih =>
    intro st s hs
    rw [removeItemsLoop]
    by_cases hmem : s ∈ rest
    · exact ih _ s hmem
    · have hsc : s = c := by
        rcases List.mem_cons.mp hs with rfl | h
        · rfl
        · exact absurd h hmem
      subst hsc
      rw [removeItemsLoop_apply_ne rest _ _ ?_]
      · simp
      · intro s' hs' heq
        have : s = s' := by simpa using heq
        exact hmem (this ▸ hs')

theorem writeItemsLoop_apply_ne (l : List (String × List Entry)) :
    ∀ (st : Store) (k : Key), (∀ p ∈ l, k ≠ Key.items p.1) →
      writeItemsLoop l st k = st k := by
  induction l with
  | nil => intro st k _; rfl
  | cons q rest ih =>
    rcases q with ⟨c, cs⟩
    intro st k hk
    rw [writeItemsLoop,
      ih _ k (fun p hp => hk p (List.mem_cons_of_mem _ hp))]
    simp [hk (c, cs) (List.mem_cons_self _ rest)]

theorem writeItemsLoop_apply_nodup (l : List (String × List Entry)) :
    ∀ (st : Store) (s : String) (its : List Entry),
      (l.map Prod.fst).Nodup → (s, its) ∈ l →
      writeItemsLoop l st (Key.items s) = some (.ents its) := by
  induction l with
  | nil => intro st s its _ hmem; simp at hmem
  | cons q rest ih =>
    rcases q with ⟨c, cs⟩
    intro st s its hnd hmem
    have hnd' : (c :: rest.map Prod.fst).Nodup := by simpa using hnd
    rcases List.mem_cons.mp hmem with heq | hmem'
    · injection heq with h1 h2
      subst h1
      subst h2
      rw [writeItemsLoop]
      have hc : s ∉ rest.map Prod.fst := (List.nodup_cons.mp hnd').1
      rw [writeItemsLoop_apply_ne rest _ _ ?_]
      · simp
      · intro p hp hk
        have hsp : s = p.1 := by simpa using hk
        exact hc (hsp ▸ List.mem_map_of_mem Prod.fst hp)
    · rw [writeItemsLoop]
      exact ih _ s its (List.nodup_cons.mp hnd').2 hmem'

theorem writeItemsLoop_apply_mem_exists (l : List (String × List Entry)) :
    ∀ (st : Store) (s : String), s ∈ l.map Prod.fst →
      ∃ es, writeItemsLoop l st (Key.items s) = some (.ents es) := by
  induction l with
  | nil => intro st s hs; simp at hs
  | cons q rest ih =>
    rcases q with ⟨c, cs⟩
    intro st s hs
    rw [writeItemsLoop]
    by_cases hmem : s ∈ rest.map Prod.fst
    · exact ih _ s hmem
    · have hsc : s = c := by
        rcases (by simpa using hs : s = c ∨ ∃ x, (s, x) ∈ rest) with h | ⟨x, hx⟩
        · exact h
        · exact absurd (List.mem_map_of_mem Prod.fst hx) hmem
      subst hsc
      rw [writeItemsLoop_apply_ne rest _ _ ?_]
      · exact ⟨cs, by simp⟩
      · intro p hp heq
        have : s = p.1 := by simpa using heq
        exact hmem (this ▸ List.mem_map_of_mem Prod.fst hp)

/-! ## C5 — replace import totality -/

/-- C5: replace-mode restore over a store whose section list is `cur`
(1) overwrites the section-list key with exactly the snapshot's
sections, (2) writes each snapshot item array verbatim under its item
key, (3) leaves no item key for any pre-existing section absent from
the snapshot, and (4)/(5) touches no backup key. -/
theorem claim5_replace_totality (snap : Snapshot) (st : Store)
    (cur : List String) (hcur : st Key.sections = some (.secs cur))
    (hkeys : (snap.items.map Prod.fst).Nodup) :
    restoreData snap true st Key.sections = some (.secs snap.sections) ∧
    (∀ p ∈ snap.items,
      restoreData snap true st (Key.items p.1) = some (.ents p.2)) ∧
    (∀ s ∈ cur, s ∉ snap.sections → s ∉ snap.items.map Prod.fst →
      restoreData snap true st (Key.items s) = none) ∧
    (∀ name, restoreData snap true st (Key.backupItems name) =
      st (Key.backupItems name)) ∧
    restoreData snap true st Key.backupSections = st Key.backupSections := by
  have hshape : restoreData snap true st =
      writeItemsLoop snap.items
        (setKey Key.sections (.secs snap.sections)
          (removeItemsLoop cur st)) := by
    show replaceRestore snap st = _
    unfold replaceRestore
    rw [hcur]
    rfl
  refine ⟨?_, ?_, ?_, ?_, ?_⟩
  · rw [hshape, writeItemsLoop_apply_ne _ _ _ (fun p _ => by simp)]
    simp
  · intro p hp
    rw [hshape]
    exact writeItemsLoop_apply_nodup snap.items _ p.1 p.2 hkeys
      (by simpa using hp)
  · intro s hs hnotsec hnotkeys
    have hne : ∀ p ∈ snap.items, Key.items s ≠ Key.items p.1 := by
      intro p hp heq
      have hsp : s = p.1 := by simpa using heq
      exact hnotkeys (hsp ▸ List.mem_map_of_mem Prod.fst hp)
    rw [hshape, writeItemsLoop_apply_ne _ _ _ hne]
    have hsk : (setKey Key.sections (.secs snap.sections)
        (removeItemsLoop cur st)) (Key.items s) =
        removeItemsLoop cur st (Key.items s) := by simp
    rw [hsk]
    exact removeItemsLoop_apply_mem cur st s hs
  · intro name
    rw [hshape, writeItemsLoop_apply_ne _ _ _ (fun p _ => by simp)]
    have hsk : (setKey Key.sections (.secs snap.sections)
        (removeItemsLoop cur st)) (Key.backupItems name) =
        removeItemsLoop cur st (Key.backupItems name) := by simp
    rw [hsk, removeItemsLoop_apply_ne cur st _ (fun s _ => by simp)]
  · rw [hshape, writeItemsLoop_apply_ne _ _ _ (fun p _ => by simp)]
    have hsk : (setKey Key.sections (.secs snap.sections)
        (removeItemsLoop cur st)) Key.backupSections =
        removeItemsLoop cur st Key.backupSections := by simp
    rw [hsk, removeItemsLoop_apply_ne cur st _ (fun s _ => by simp)]

/-- C5 witness: the replace-totality theorem at a concrete store with a
pre-existing section `"Old"` and a snapshot of sections `["A"]`. -/
theorem claim5_replace_totality_witness :
    restoreData ⟨["A"], [("A", [⟨some 2, some "y", some 2, some 2⟩])]⟩ true
        (setKey Key.sections (.secs ["Old"])
          (setKey (Key.items "Old")
            (.ents [⟨some 1, some "x", some 1, some 1⟩]) emptyStore))
        Key.sections = some (.secs ["A"]) ∧
    restoreData ⟨["A"], [("A", [⟨some 2, some "y", some 2, some 2⟩])]⟩ true
        (setKey Key.sections (.secs ["Old"])
          (setKey (Key.items "Old")
            (.ents [⟨some 1, some "x", some 1, some 1⟩]) emptyStore))
        (Key.items "Old") = none := by
  have h := claim5_replace_totality
    ⟨["A"], [("A", [⟨some 2, some "y", some 2, some 2⟩])]⟩
    (setKey Key.sections (.secs ["Old"])
      (setKey (Key.items "Old")
        (.ents [⟨some 1, some "x", some 1, some 1⟩]) emptyStore))
    ["Old"] (by decide) (by decide)
  exact ⟨h.1, h.2.2.1 "Old" (by decide) (by decide) (by decide)⟩

/-! ## C10 — item keys are written for every key of the items mapping -/

/-- C10: `restoreData` writes an item key for every key of
`backupData.items` regardless of whether that key appears in
`backupData.sections`, in both modes; so for a snapshot with an items
key `s` absent from its sections, the resulting store holds an item
array under `s`'s item key while `s` is absent from the stored section
list. -/
theorem claim10_restore_writes_unlisted_item_keys (snap : Snapshot)
    (st : Store) (s : String) (ns : List Entry)
    (hmem : (s, ns) ∈ snap.items) (hsec : s ∉ snap.sections) :
    ((∃ es, restoreData snap true st (Key.items s) = some (.ents es)) ∧
      restoreData snap true st Key.sections = some (.secs snap.sections)) ∧
    (s ∉ asStrList (st Key.sections) →
      (∃ es, restoreData snap false st (Key.items s) = some (.ents es)) ∧
      ∃ L, restoreData snap false st Key.sections = some (.secs L) ∧
        s ∉ L) := by
  refine ⟨⟨?_, ?_⟩, ?_⟩
  · show ∃ es, replaceRestore snap st (Key.items s) = some (.ents es)
    unfold replaceRestore
    exact writeItemsLoop_apply_mem_exists snap.items _ s
      (List.mem_map_of_mem Prod.fst hmem)
  · show replaceRestore snap st Key.sections = some (.secs snap.sections)
    unfold replaceRestore
    rw [writeItemsLoop_apply_ne _ _ _ (fun p _ => by simp)]
    simp
  · intro hcur
    constructor
    · show ∃ es, mergeRestore snap st (Key.items s) = some (.ents es)
      unfold mergeRestore
      obtain ⟨es, hes, _⟩ := mergeItemsLoop_post snap.items _ (s, ns) hmem
      exact ⟨es, hes⟩
    · refine ⟨jsSetDedup (asStrList (st Key.sections) ++ snap.sections),
        ?_, ?_⟩
      · show mergeRestore snap st Key.sections = _
        unfold mergeRestore
        rw [mergeItemsLoop_apply_ne _ _ _ (fun s' => by simp)]
        simp
      · rw [mem_jsSetDedup]
        intro hc
        rcases List.mem_append.mp hc with h | h
        · exact hcur h
        · exact hsec h

/-- C10 witness: a snapshot whose items mapping has key `"B"` while its
sections list is `["A"]`, restored over the empty store in both
modes. -/
theorem claim10_restore_writes_unlisted_item_keys_witness :
    (∃ es, restoreData ⟨["A"], [("B", [⟨some 1, some "x", some 1, some 1⟩])]⟩
        true emptyStore (Key.items "B") = some (.ents es)) ∧
    (∃ L, restoreData ⟨["A"], [("B", [⟨some 1, some "x", some 1, some 1⟩])]⟩
        false emptyStore Key.sections = some (.secs L) ∧ "B" ∉ L) := by
  have h := claim10_restore_writes_unlisted_item_keys
    ⟨["A"], [("B", [⟨some 1, some "x", some 1, some 1⟩])]⟩ emptyStore
    "B" [⟨some 1, some "x", some 1, some 1⟩] (by decide) (by decide)
  exact ⟨h.1.1, (h.2 (by decide)).2⟩

/-! ## C9 — `validateBackupData` accepts an array as the items field -/

theorem checkSectionItems_of_none (items : JValue) :
    ∀ (ss : List JValue),
      (∀ sec ∈ ss, jsGetField items (jsToString sec) = none) →
      checkSectionItems items ss = ⟨true, none⟩ := by
  intro ss
  induction ss with
  | nil => intro _; rfl
  | cons sec rest ih =>
    intro h
    have h0 := h sec (List.mem_cons_self sec rest)
    simp only [checkSectionItems, h0, truthyOpt, Bool.false_and,
      Bool.false_eq_true, if_false]
    exact ih (fun a ha => h a (List.mem_cons_of_mem sec ha))

/-- C9: any input whose `metadata` field is truthy and whose `sections`
and `items` fields are both arrays passes validation whenever every
lookup of a sections element inside the items array is `undefined`
(`typeof` of an array is `'object'`, so the items-shape check
passes) — even though the archive format describes `items` as a
name-to-entry-list mapping. -/
theorem claim9_validate_accepts_array_items (data : JValue)
    (ss its : List JValue)
    (hdata : truthy data = true)
    (hmeta : truthyOpt (jsGetField data "metadata") = true)
    (hsec : jsGetField data "sections" = some (.arr ss))
    (hitems : jsGetField data "items" = some (.arr its))
    (hlook : ∀ sec ∈ ss, jsGetField (.arr its) (jsToString sec) = none) :
    validateBackupData data = ⟨true, none⟩ := by
  unfold validateBackupData
  rw [hdata, hmeta, hsec, hitems]
  simp only [truthyOpt, truthy, typeofOpt, jsTypeof, Bool.not_true,
    Bool.false_or, Bool.or_self, Bool.false_eq_true, if_false, ne_eq,
    not_true_eq_false, ite_false]
  exact checkSectionItems_of_none (.arr its) ss hlook

/-- C9 witness: a concrete backup document whose `items` field is the
array `[1]` is declared valid. -/
theorem claim9_validate_accepts_array_items_witness :
    validateBackupData (.obj
      [("metadata", .obj [("version", .str "1.0")]),
       ("sections", .arr [.str "A"]),
       ("items", .arr [.num 1])]) = ⟨true, none⟩ := by
  refine claim9_validate_accepts_array_items _ [.str "A"] [.num 1]
    rfl rfl rfl rfl ?_
  intro sec hsec
  have hs : sec = JValue.str "A" := by simpa using hsec
  subst hs
  have ht : jsToString (JValue.str "A") = "A" := by simp [jsToString]
  rw [ht]
  rfl

end MaomaoDiaries
